import Mathlib

/-!
# Verification of the Anvic-Chat encryption core (`src/services/encryption.ts`)

Shallow embedding of the `AnvicCrypto` class and the storage collaborator
(`AsyncStorage`), together with proofs/refutations of the frozen claims about
the spec.

Modelling conventions:
* A JavaScript string is modelled as `JSStr := List Nat`, the list of its
  UTF-16 code units (`charCodeAt` values).  All string literals appearing in
  the source are ASCII, where code unit = code point = UTF-8 byte.
* `Buffer.from(s, 'utf8')` / `buf.toString('utf8')` are modelled by
  `utf8Encode` / `utf8Decode` over code-unit lists (surrogate pairs produce
  4-byte sequences, lone surrogates the U+FFFD replacement bytes, exactly as
  Node does).
* `Buffer.from(s, 'base64')` is modelled by `b64Decode`, which like Node's
  decoder skips characters outside the base64 alphabet (Node also accepts the
  URL-safe alphabet `-`/`_`) and decodes leftover groups of 2 or 3 characters.
  `buf.toString('base64')` is `b64Encode` (standard alphabet, `=` padding).
* `Date.now()` and `Math.random()` are modelled as explicit parameters: each
  call site of `Date.now()` receives its own `Nat` (epoch milliseconds), and
  the *string interpolation* of `Math.random()` is passed as a `JSStr`
  parameter (only its string form enters the code).
* `AsyncStorage` is modelled as an association list plus a set of keys on
  which `getItem`/`setItem`/`removeItem` throw, so that storage failure
  (the only reachable `catch` path) can be expressed.
* JavaScript 32-bit coercions (`<<`, `& `) are modelled by `toInt32`;
  `String.fromCharCode` composed with latin1 `Buffer.from(·,'binary')`
  truncates char codes to one byte, modelled by `% 256`.
-/

/-- A JavaScript string: the list of its UTF-16 code units. -/
abbrev JSStr := List Nat

/-- Embed an ASCII Lean string literal as a `JSStr` (code points = code units
for the ASCII literals used by the source). -/
def jstr (s : String) : JSStr := s.data.map Char.toNat

/-- Fuel-driven digit extraction (structural recursion so that the kernel can
evaluate it; `decDigits` supplies ample fuel). -/
def decDigitsAux : Nat → Nat → JSStr
  | 0, _ => []
  | fuel + 1, n => if n < 10 then [48 + n] else decDigitsAux fuel (n / 10) ++ [48 + n % 10]

/-- Decimal digits of `n`, most significant first — JavaScript
`Number.prototype.toString()` for a nonnegative integer. -/
def decDigits (n : Nat) : JSStr := decDigitsAux (n + 1) n

/-- Value of a most-significant-first decimal digit string (helper used to
show `decDigits` is injective). -/
def decVal (s : JSStr) : Nat := s.foldl (fun a d => a * 10 + (d - 48)) 0

/-- Single lowercase hex digit character code. -/
def hexChar (d : Nat) : Nat := if d < 10 then 48 + d else 87 + d

/-- Fuel-driven hex digit extraction (structural recursion so that the kernel
can evaluate it; `hexDigits` supplies ample fuel). -/
def hexDigitsAux : Nat → Nat → JSStr
  | 0, _ => []
  | fuel + 1, n => if n < 16 then [hexChar n] else hexDigitsAux fuel (n / 16) ++ [hexChar (n % 16)]

/-- Lowercase hexadecimal digits of `n`, most significant first — JavaScript
`Number.prototype.toString(16)` for a nonnegative integer. -/
def hexDigits (n : Nat) : JSStr := hexDigitsAux (n + 1) n

/-- JavaScript `String.prototype.padStart(w, '0')`. -/
def padStart (w : Nat) (s : JSStr) : JSStr := List.replicate (w - s.length) 48 ++ s

/-- JavaScript `ToInt32`: reduce an integer into `[-2^31, 2^31)`.  This is the
coercion applied by `<<` and `&` in `generateHash`. -/
def toInt32 (x : Int) : Int :=
  if x % 4294967296 < 2147483648 then x % 4294967296
  else x % 4294967296 - 4294967296

/-- One step of the hash loop of `AnvicCrypto.generateHash`:
`hash = ((hash << 5) - hash) + char; hash = hash & hash`.  `hash << 5` is
`ToInt32(hash) * 32` wrapped to 32 bits; the subtraction and addition are
exact float arithmetic (the magnitudes involved are exact in a double); the
final `& ` wraps to 32 bits again. -/
def hashStep (h : Int) (c : Nat) : Int := toInt32 (toInt32 (h * 32) - h + c)

/-- The six-bit-value → base64-character table used by Node's encoder
(standard alphabet). -/
def encB64 (v : Nat) : Nat :=
  if v < 26 then 65 + v
  else if v < 52 then 71 + v
  else if v < 62 then v - 4
  else if v = 62 then 43
  else 47

/-- Characters accepted by Node's base64 decoder (standard alphabet plus the
URL-safe `-` and `_`); everything else, including `=`, is skipped. -/
def isB64Char (c : Nat) : Bool :=
  (65 ≤ c && c ≤ 90) || (97 ≤ c && c ≤ 122) || (48 ≤ c && c ≤ 57) ||
    c == 43 || c == 47 || c == 45 || c == 95

/-- base64 character → six-bit value (Node's `unbase64` table). -/
def decB64 (c : Nat) : Nat :=
  if 65 ≤ c && c ≤ 90 then c - 65
  else if 97 ≤ c && c ≤ 122 then c - 71
  else if 48 ≤ c && c ≤ 57 then c + 4
  else if c == 43 || c == 45 then 62
  else 63

/-- Node base64 encoding of a byte list (`buf.toString('base64')`): groups of
three bytes become four characters, a trailing group of one or two bytes is
padded with `=` (char code 61). -/
def b64Encode : List Nat → JSStr
  | [] => []
  | [a] => [encB64 (a / 4), encB64 (a % 4 * 16), 61, 61]
  | [a, b] => [encB64 (a / 4), encB64 (a % 4 * 16 + b / 16), encB64 (b % 16 * 4), 61]
  | a :: b :: c :: rest =>
      encB64 (a / 4) :: encB64 (a % 4 * 16 + b / 16) ::
        encB64 (b % 16 * 4 + c / 64) :: encB64 (c % 64) :: b64Encode rest

/-- Decode a list of base64 character codes already filtered to the alphabet:
four characters yield three bytes; a leftover group of three yields two bytes,
of two yields one byte, and a single leftover character yields nothing. -/
def b64DecodeCore : JSStr → List Nat
  | v1 :: v2 :: v3 :: v4 :: rest =>
      (decB64 v1 * 4 + decB64 v2 / 16) :: (decB64 v2 % 16 * 16 + decB64 v3 / 4) ::
        (decB64 v3 % 4 * 64 + decB64 v4) :: b64DecodeCore rest
  | [v1, v2, v3] => [decB64 v1 * 4 + decB64 v2 / 16, decB64 v2 % 16 * 16 + decB64 v3 / 4]
  | [v1, v2] => [decB64 v1 * 4 + decB64 v2 / 16]
  | _ => []

/-- Node base64 decoding of a string (`Buffer.from(s, 'base64')`): characters
outside the accepted alphabet are skipped, then groups are decoded. -/
def b64Decode (s : JSStr) : List Nat := b64DecodeCore (s.filter isB64Char)

/-- Model of `key.charCodeAt(i % key.length)` as evaluated by JavaScript: for a
nonempty key this is the cyclic lookup; for an empty key `i % 0` is `NaN`,
`charCodeAt(NaN)` is `charCodeAt(0)` which is `NaN` on the empty string, and
`x ^ NaN` is `x ^ 0` — exactly `getD` with default `0`. -/
def keyAt (key : JSStr) (i : Nat) : Nat := key.getD (i % key.length) 0

/-- The XOR loops of `simpleEncrypt`/`simpleDecrypt` starting at index `i`:
each data char code is XORed with the cyclic key char code; the result is then
pushed through `String.fromCharCode` and a latin1 `Buffer`, which truncates it
to one byte (`% 256`). -/
def xorCycAux (key : JSStr) (i : Nat) : JSStr → JSStr
  | [] => []
  | d :: rest => (d ^^^ keyAt key i) % 256 :: xorCycAux key (i + 1) rest

/-- The full XOR loop (`for (let i = 0; ...)`). -/
def xorCyc (data key : JSStr) : JSStr := xorCycAux key 0 data

/-- Fuel-driven UTF-8 encoding step loop (structural recursion on the fuel so
that the kernel can evaluate it; each step consumes at least one code unit, so
`l.length` fuel always suffices). -/
def utf8EncodeAux : Nat → JSStr → List Nat
  | 0, _ => []
  | fuel + 1, l =>
    match l with
    | [] => []
    | c :: rest =>
      if c < 128 then c :: utf8EncodeAux fuel rest
      else if c < 2048 then (192 + c / 64) :: (128 + c % 64) :: utf8EncodeAux fuel rest
      else if c < 55296 || 57344 ≤ c then
        (224 + c / 4096) :: (128 + c / 64 % 64) :: (128 + c % 64) :: utf8EncodeAux fuel rest
      else if c < 56320 then
        match rest with
        | c2 :: rest2 =>
          if 56320 ≤ c2 && c2 < 57344 then
            let cp := 65536 + (c - 55296) * 1024 + (c2 - 56320)
            (240 + cp / 262144) :: (128 + cp / 4096 % 64) :: (128 + cp / 64 % 64) ::
              (128 + cp % 64) :: utf8EncodeAux fuel rest2
          else 239 :: 191 :: 189 :: utf8EncodeAux fuel (c2 :: rest2)
        | [] => [239, 191, 189]
      else 239 :: 191 :: 189 :: utf8EncodeAux fuel rest

/-- UTF-8 encoding of a UTF-16 code-unit list, as performed by
`Buffer.from(s, 'utf8')`: ASCII and BMP code points encode to 1–3 bytes, a
high/low surrogate pair encodes the supplementary code point to 4 bytes, and a
lone surrogate becomes the replacement character `EF BF BD`. -/
def utf8Encode (l : JSStr) : List Nat := utf8EncodeAux l.length l

/-- One step of UTF-8 decoding: given the lead byte `b` and the remaining
bytes, return the decoded code units of the first sequence (supplementary
points re-split into a surrogate pair, malformed bytes mapped to the
replacement character U+FFFD) together with the number of *extra* bytes the
sequence consumed. -/
def utf8DecStep (b : Nat) (rest : List Nat) : List Nat × Nat :=
  if b < 128 then ([b], 0)
  else if 194 ≤ b && b ≤ 223 then
    match rest with
    | b2 :: _ =>
      if 128 ≤ b2 && b2 < 192 then ([(b - 192) * 64 + (b2 - 128)], 1) else ([65533], 0)
    | [] => ([65533], 0)
  else if 224 ≤ b && b ≤ 239 then
    match rest with
    | b2 :: b3 :: _ =>
      if (128 ≤ b2 && b2 < 192) && (128 ≤ b3 && b3 < 192) then
        ([(b - 224) * 4096 + (b2 - 128) * 64 + (b3 - 128)], 2)
      else ([65533], 0)
    | _ => ([65533], rest.length)
  else if 240 ≤ b && b ≤ 244 then
    match rest with
    | b2 :: b3 :: b4 :: _ =>
      if (128 ≤ b2 && b2 < 192) && (128 ≤ b3 && b3 < 192) && (128 ≤ b4 && b4 < 192) then
        if (b - 240) * 262144 + (b2 - 128) * 4096 + (b3 - 128) * 64 + (b4 - 128)
            < 65536 then
          ([(b - 240) * 262144 + (b2 - 128) * 4096 + (b3 - 128) * 64 + (b4 - 128)], 3)
        else
          ([55296 + ((b - 240) * 262144 + (b2 - 128) * 4096 + (b3 - 128) * 64
              + (b4 - 128) - 65536) / 1024,
            56320 + ((b - 240) * 262144 + (b2 - 128) * 4096 + (b3 - 128) * 64
              + (b4 - 128) - 65536) % 1024], 3)
      else ([65533], 0)
    | _ => ([65533], rest.length)
  else ([65533], 0)

/-- Fuel-driven UTF-8 decoding loop (structural recursion on the fuel so that
the kernel can evaluate it; each step consumes at least one byte, so
`l.length` fuel always suffices). -/
def utf8DecodeAux : Nat → List Nat → JSStr
  | 0, _ => []
  | fuel + 1, l =>
    match l with
    | [] => []
    | b :: rest =>
      (utf8DecStep b rest).1 ++ utf8DecodeAux fuel (rest.drop (utf8DecStep b rest).2)

/-- UTF-8 decoding of a byte list back to UTF-16 code units, as performed by
`buf.toString('utf8')`: valid 1–4 byte sequences decode via `utf8DecStep`;
only the valid sequences are exercised by the theorems below. -/
def utf8Decode (l : List Nat) : JSStr := utf8DecodeAux l.length l

/-- Well-formed UTF-16: every code unit is a BMP non-surrogate or part of a
high/low surrogate pair.  This is the precondition under which Node's
utf8 encode/decode round-trips a JavaScript string. -/
def validUtf16 : JSStr → Bool
  | [] => true
  | c :: rest =>
    if c < 55296 || (57344 ≤ c && c < 65536) then validUtf16 rest
    else if c < 56320 then
      match rest with
      | c2 :: rest2 => 56320 ≤ c2 && c2 < 57344 && validUtf16 rest2
      | [] => false
    else false

/-! ## The storage collaborator (`AsyncStorage`) -/

/-- The persistent key-value store.  `items` is the stored mapping (most
recent write first); `failing` is the set of storage keys on which
`getItem`/`setItem`/`removeItem` reject, so that the `catch` branches of the
source can be exercised.  A store "behaving as a map" has `failing = []`. -/
structure Store where
  items : List (JSStr × JSStr)
  failing : List JSStr
deriving DecidableEq, Repr

/-- Model of `AsyncStorage.getItem`: `null` becomes `none`; a rejected promise becomes
`Except.error`. -/
def getItem (st : Store) (k : JSStr) : Except Unit (Option JSStr) :=
  if k ∈ st.failing then .error () else .ok (st.items.lookup k)

/-- Model of `AsyncStorage.setItem`. -/
def setItem (st : Store) (k v : JSStr) : Except Unit Store :=
  if k ∈ st.failing then .error () else .ok ⟨(k, v) :: st.items, st.failing⟩

/-- Model of `AsyncStorage.removeItem`. -/
def removeItem (st : Store) (k : JSStr) : Except Unit Store :=
  if k ∈ st.failing then .error ()
  else .ok ⟨st.items.filter (fun p => !(p.1 == k)), st.failing⟩

/-! ## The `AnvicCrypto` class -/

/-- The `type` field of an envelope: `'text' | 'image' | 'audio' | 'video'`. -/
inductive MType where
  | text | image | audio | video
deriving DecidableEq, Repr

/-- The `EncryptedMessage` interface. -/
structure EncryptedMessage where
  content : JSStr
  iv : JSStr
  timestamp : Nat
  type : MType
deriving DecidableEq, Repr

/-- The storage key template of the source, `ENCRYPTION_KEY` + `'_'` + `userId`, with
`ENCRYPTION_KEY = 'anvic_encryption_key'`. -/
def storageKey (userId : JSStr) : JSStr := jstr "anvic_encryption_key_" ++ userId

/-- Model of `AnvicCrypto.generateHash`: the 32-bit string hash, then
`Math.abs(hash).toString(16).padStart(8, '0').repeat(4)`. -/
def generateHash (data : JSStr) : JSStr :=
  let h := data.foldl hashStep 0
  let s := padStart 8 (hexDigits h.natAbs)
  s ++ s ++ s ++ s

/-- The key-derivation path of `generateUserKey`:
`` keyMaterial = `${userId}_${Date.now()}_${Math.random()}_anvic_secure` ``,
then `generateHash(keyMaterial).substring(0, 32)`.  `t` is the value returned
by `Date.now()` and `r` the string interpolation of `Math.random()`. -/
def deriveKey (userId : JSStr) (t : Nat) (r : JSStr) : JSStr :=
  (generateHash (userId ++ jstr "_" ++ decDigits t ++ jstr "_" ++ r ++
    jstr "_anvic_secure")).take 32

/-- Model of `AnvicCrypto.generateUserKey`: return the stored key if present, else
derive a fresh one, store it and return it.  Storage rejections propagate
(the function has no `try`/`catch`). -/
def generateUserKey (userId : JSStr) (t : Nat) (r : JSStr) (st : Store) :
    Except Unit (JSStr × Store) :=
  match getItem st (storageKey userId) with
  | .error e => .error e
  | .ok (some storedKey) => .ok (storedKey, st)
  | .ok none =>
    match setItem st (storageKey userId) (deriveKey userId t r) with
    | .error e => .error e
    | .ok st' => .ok (deriveKey userId t r, st')

/-- Model of `AnvicCrypto.simpleEncrypt`: utf8 → base64, XOR with the cyclic key, then
latin1-bytes → base64. -/
def simpleEncrypt (text key : JSStr) : JSStr :=
  b64Encode (xorCyc (b64Encode (utf8Encode text)) key)

/-- Model of `AnvicCrypto.simpleDecrypt`: base64-decode to latin1 bytes, XOR with the
cyclic key, then base64-decode the resulting string and read it as utf8.
Every step is total in JavaScript (`Buffer.from(·, 'base64')` is lenient and
never throws, `toString('utf8')` substitutes U+FFFD), so the `catch` branch
returning `'[Erro na descriptografia]'` is unreachable and does not appear in
the model. -/
def simpleDecrypt (encrypted key : JSStr) : JSStr :=
  utf8Decode (b64Decode (xorCyc (b64Decode encrypted) key))

/-- Model of `AnvicCrypto.encryptMessage`.  `tKey`/`rKey` feed the `Date.now()` /
`Math.random()` calls inside `generateUserKey`; `tIv` and `tTs` are the two
separate `Date.now()` calls producing `iv` and `timestamp`.  A storage
rejection is caught and re-thrown as `new Error('Falha na criptografia da
mensagem')`, i.e. the call fails. -/
def encryptMessage (message userId : JSStr) (messageType : MType)
    (tKey : Nat) (rKey : JSStr) (tIv tTs : Nat) (st : Store) :
    Except Unit (EncryptedMessage × Store) :=
  match generateUserKey userId tKey rKey st with
  | .error _ => .error ()
  | .ok (key, st') =>
    .ok ({ content := simpleEncrypt message key
           iv := decDigits tIv
           timestamp := tTs
           type := messageType }, st')

/-- Model of `AnvicCrypto.decryptMessage`: never throws — a storage rejection inside
`generateUserKey` is caught and the sentinel
`'[Mensagem criptografada - erro na descriptografia]'` is returned; otherwise
the result of `simpleDecrypt` on the `content` field is returned (which may
itself be garbage — `simpleDecrypt` never throws). -/
def decryptMessage (encryptedData : EncryptedMessage) (userId : JSStr)
    (tKey : Nat) (rKey : JSStr) (st : Store) : JSStr × Store :=
  match generateUserKey userId tKey rKey st with
  | .error _ => (jstr "[Mensagem criptografada - erro na descriptografia]", st)
  | .ok (key, st') => (simpleDecrypt encryptedData.content key, st')

/-- The `CryptoJS` global referenced by `compressBase64`/`decompressBase64` is
never imported or defined anywhere in the repository, so evaluating
`CryptoJS.enc...` throws a `ReferenceError` and the `catch` returns the input
unchanged.  The unbound binding is modelled as `none`. -/
def cryptoJSCompress : Option (JSStr → JSStr) := none

/-- See `cryptoJSCompress`. -/
def cryptoJSDecompress : Option (JSStr → JSStr) := none

/-- Model of `AnvicCrypto.compressBase64`: the whole `try` body throws because
`CryptoJS` is unbound, so the `catch` returns the input. -/
def compressBase64 (base64 : JSStr) : JSStr :=
  match cryptoJSCompress with
  | some f => f base64
  | none => base64

/-- Model of `AnvicCrypto.decompressBase64`: same unreachable `try` body. -/
def decompressBase64 (compressed : JSStr) : JSStr :=
  match cryptoJSDecompress with
  | some f => f compressed
  | none => compressed

/-- Model of `AnvicCrypto.encryptMedia`: compress (identity) then `encryptMessage`. -/
def encryptMedia (base64Data userId : JSStr) (mediaType : MType)
    (tKey : Nat) (rKey : JSStr) (tIv tTs : Nat) (st : Store) :
    Except Unit (EncryptedMessage × Store) :=
  encryptMessage (compressBase64 base64Data) userId mediaType tKey rKey tIv tTs st

/-- Model of `AnvicCrypto.decryptMedia`: `decryptMessage` then decompress (identity). -/
def decryptMedia (encryptedData : EncryptedMessage) (userId : JSStr)
    (tKey : Nat) (rKey : JSStr) (st : Store) : JSStr × Store :=
  let d := decryptMessage encryptedData userId tKey rKey st
  (decompressBase64 d.1, d.2)

/-- Model of `AnvicCrypto.clearUserKeys`. -/
def clearUserKeys (userId : JSStr) (st : Store) : Except Unit Store :=
  removeItem st (storageKey userId)

/-- Model of `AnvicCrypto.verifyMessageIntegrity` with `now` the value of `Date.now()`:
false exactly when the message is more than 24 hours old. -/
def verifyMessageIntegrity (now : Nat) (encryptedData : EncryptedMessage) : Bool :=
  if (now : Int) - (encryptedData.timestamp : Int) > 24 * 60 * 60 * 1000 then false
  else true

/-! ## Observers used to state claims on concrete runs -/

/-- The envelope produced by a successful `encryptMessage` call (a default
envelope if the call failed; the claims using this observer also assert or
assume success). -/
def encEnvOf (message userId : JSStr) (messageType : MType)
    (tKey : Nat) (rKey : JSStr) (tIv tTs : Nat) (st : Store) : EncryptedMessage :=
  match encryptMessage message userId messageType tKey rKey tIv tTs st with
  | .ok (e, _) => e
  | .error _ => ⟨[], [], 0, .text⟩

/-- The key returned by a successful `generateUserKey` call (`[]` on error). -/
def genKeyOf (userId : JSStr) (t : Nat) (r : JSStr) (st : Store) : JSStr :=
  match generateUserKey userId t r st with
  | .ok (k, _) => k
  | .error _ => []

/-- The store after a successful `generateUserKey` call (unchanged on error). -/
def genStoreOf (userId : JSStr) (t : Nat) (r : JSStr) (st : Store) : Store :=
  match generateUserKey userId t r st with
  | .ok (_, s) => s
  | .error _ => st

/-- Encrypt under `uEnc`, then decrypt the resulting envelope under `uDec`
(threading the store); `none` when encryption fails. -/
def encryptThenDecrypt (p uEnc uDec : JSStr) (mt : MType)
    (tKey : Nat) (rKey : JSStr) (tIv tTs : Nat) (tKey2 : Nat) (rKey2 : JSStr)
    (st : Store) : Option JSStr :=
  match encryptMessage p uEnc mt tKey rKey tIv tTs st with
  | .ok (env, st') => some (decryptMessage env uDec tKey2 rKey2 st').1
  | .error _ => none

/-- Media variant of `encryptThenDecrypt`. -/
def encryptThenDecryptMedia (b uEnc uDec : JSStr) (mt : MType)
    (tKey : Nat) (rKey : JSStr) (tIv tTs : Nat) (tKey2 : Nat) (rKey2 : JSStr)
    (st : Store) : Option JSStr :=
  match encryptMedia b uEnc mt tKey rKey tIv tTs st with
  | .ok (env, st') => some (decryptMedia env uDec tKey2 rKey2 st').1
  | .error _ => none

/-! ## Lemmas: decimal and hexadecimal digit strings -/

theorem decVal_append_digit (xs : JSStr) (d : Nat) :
    decVal (xs ++ [d]) = decVal xs * 10 + (d - 48) := by
  simp [decVal, List.foldl_append]

theorem lt_pow_succ_self (b n : Nat) (hb : 1 < b) : n < b ^ (n + 1) :=
  lt_of_lt_of_le (Nat.lt_pow_self hb n) (Nat.pow_le_pow_right (by omega) (by omega))

theorem decVal_decDigitsAux : ∀ (fuel n : Nat), n < 10 ^ fuel →
    decVal (decDigitsAux fuel n) = n := by
  intro fuel
  induction fuel with
  | zero =>
    intro n hn
    simp at hn
    subst hn
    rfl
  | succ f ih =>
    intro n hn
    rw [decDigitsAux]
    by_cases h : n < 10
    · simp [h, decVal]
    · simp only [h, if_false]
      rw [decVal_append_digit, ih (n / 10) (by rw [pow_succ] at hn; omega)]
      omega

theorem decVal_decDigits (n : Nat) : decVal (decDigits n) = n :=
  decVal_decDigitsAux (n + 1) n (lt_pow_succ_self 10 n (by omega))

theorem decDigits_injective {m n : Nat} (h : decDigits m = decDigits n) : m = n := by
  have hm := decVal_decDigits m
  have hn := decVal_decDigits n
  rw [h, hn] at hm
  omega

theorem hexDigitsAux_length_le : ∀ (fuel n k : Nat), 0 < k → n < 16 ^ k →
    n < 16 ^ fuel → (hexDigitsAux fuel n).length ≤ k := by
  intro fuel
  induction fuel with
  | zero =>
    intro n k _ _ hf
    simp at hf
    subst hf
    simp [hexDigitsAux]
  | succ f ih =>
    intro n k hk hn hf
    rw [hexDigitsAux]
    by_cases h : n < 16
    · simp [h]
      omega
    · simp only [h, if_false, List.length_append, List.length_cons, List.length_nil]
      have hj : 0 < k - 1 := by
        by_contra hj0
        have hone : k = 1 := by omega
        subst hone
        simp at hn
        omega
      have hdiv : n / 16 < 16 ^ (k - 1) := by
        have hks : k - 1 + 1 = k := by omega
        rw [← hks, pow_succ] at hn
        omega
      have hdivf : n / 16 < 16 ^ f := by
        rw [pow_succ] at hf
        omega
      have := ih (n / 16) (k - 1) hj hdiv hdivf
      omega

theorem hexDigits_length_le (k n : Nat) (hk : 0 < k) (hn : n < 16 ^ k) :
    (hexDigits n).length ≤ k := by
  refine hexDigitsAux_length_le (n + 1) n k hk hn ?_
  exact lt_pow_succ_self 16 n (by omega)

theorem hexChar_lt (d : Nat) (hd : d < 16) : hexChar d < 256 := by
  simp only [hexChar]
  split <;> omega

theorem hexDigitsAux_mem_lt : ∀ (fuel n : Nat), ∀ c ∈ hexDigitsAux fuel n, c < 256 := by
  intro fuel
  induction fuel with
  | zero => intro n c hc; simp [hexDigitsAux] at hc
  | succ f ih =>
    intro n c hc
    rw [hexDigitsAux] at hc
    by_cases h : n < 16
    · simp [h] at hc
      subst hc
      exact hexChar_lt n h
    · simp only [h, if_false, List.mem_append, List.mem_cons, List.not_mem_nil,
        or_false] at hc
      rcases hc with hc | hc
      · exact ih (n / 16) c hc
      · subst hc
        exact hexChar_lt _ (by omega)

theorem hexDigits_mem_lt (n : Nat) : ∀ c ∈ hexDigits n, c < 256 :=
  hexDigitsAux_mem_lt (n + 1) n

/-! ## Lemmas: the 32-bit hash -/

theorem toInt32_range (x : Int) :
    -2147483648 ≤ toInt32 x ∧ toInt32 x < 2147483648 := by
  unfold toInt32
  have h1 : 0 ≤ x % 4294967296 := Int.emod_nonneg x (by omega)
  have h2 : x % 4294967296 < 4294967296 := Int.emod_lt_of_pos x (by omega)
  split <;> omega

theorem foldl_hashStep_range (s : JSStr) (h : Int)
    (hh : -2147483648 ≤ h ∧ h < 2147483648) :
    -2147483648 ≤ s.foldl hashStep h ∧ s.foldl hashStep h < 2147483648 := by
  induction s generalizing h with
  | nil => simpa using hh
  | cons c rest ih =>
    simp only [List.foldl_cons]
    exact ih (hashStep h c) (toInt32_range _)

theorem generateHash_length (data : JSStr) : (generateHash data).length = 32 := by
  unfold generateHash
  have hrange := foldl_hashStep_range data 0 (by omega)
  have habs : (data.foldl hashStep 0).natAbs ≤ 2147483648 := by omega
  have hlt : (data.foldl hashStep 0).natAbs < 16 ^ 8 := by
    have : (16 : Nat) ^ 8 = 4294967296 := by norm_num
    omega
  have hlen := hexDigits_length_le 8 (data.foldl hashStep 0).natAbs (by omega) hlt
  simp only [List.length_append, padStart, List.length_replicate]
  omega

theorem padStart_mem_lt (w : Nat) (s : JSStr) (hs : ∀ c ∈ s, c < 256) :
    ∀ c ∈ padStart w s, c < 256 := by
  intro c hc
  simp only [padStart, List.mem_append, List.mem_replicate] at hc
  rcases hc with hc | hc
  · omega
  · exact hs c hc

theorem generateHash_mem_lt (data : JSStr) : ∀ c ∈ generateHash data, c < 256 := by
  unfold generateHash
  intro c hc
  simp only [List.mem_append] at hc
  have hpad := padStart_mem_lt 8 (hexDigits (data.foldl hashStep 0).natAbs)
    (hexDigits_mem_lt _)
  rcases hc with ((hc | hc) | hc) | hc <;> exact hpad c hc

/-! ## Lemmas: base64 -/

theorem encB64_lt (v : Nat) : encB64 v < 128 := by
  unfold encB64
  split_ifs <;> omega

theorem decB64_encB64 : ∀ v < 64, decB64 (encB64 v) = v := by decide

theorem isB64Char_encB64 : ∀ v < 64, isB64Char (encB64 v) = true := by decide

theorem isB64Char_pad : isB64Char 61 = false := by decide

theorem b64Encode_mem_lt (bs : List Nat) : ∀ x ∈ b64Encode bs, x < 128 := by
  induction bs using b64Encode.induct with
  | case1 => simp [b64Encode]
  | case2 a =>
    intro x hx
    simp only [b64Encode, List.mem_cons, List.not_mem_nil, or_false] at hx
    rcases hx with h | h | h | h <;> subst h <;> first | exact encB64_lt _ | omega
  | case3 a b =>
    intro x hx
    simp only [b64Encode, List.mem_cons, List.not_mem_nil, or_false] at hx
    rcases hx with h | h | h | h <;> subst h <;> first | exact encB64_lt _ | omega
  | case4 a b c rest ih =>
    intro x hx
    simp only [b64Encode, List.mem_cons] at hx
    rcases hx with h | h | h | h | h
    · subst h; exact encB64_lt _
    · subst h; exact encB64_lt _
    · subst h; exact encB64_lt _
    · subst h; exact encB64_lt _
    · exact ih x h

theorem b64_roundtrip (bs : List Nat) (hb : ∀ x ∈ bs, x < 256) :
    b64Decode (b64Encode bs) = bs := by
  induction bs using b64Encode.induct with
  | case1 => rfl
  | case2 a =>
    have ha : a < 256 := hb a (by simp)
    have h1 := isB64Char_encB64 (a / 4) (by omega)
    have h2 := isB64Char_encB64 (a % 4 * 16) (by omega)
    have d1 := decB64_encB64 (a / 4) (by omega)
    have d2 := decB64_encB64 (a % 4 * 16) (by omega)
    simp only [b64Decode, b64Encode, List.filter, h1, h2, isB64Char_pad]
    simp only [b64DecodeCore, d1, d2, List.cons.injEq, and_true]
    omega
  | case3 a b =>
    have ha : a < 256 := hb a (by simp)
    have hbb : b < 256 := hb b (by simp)
    have h1 := isB64Char_encB64 (a / 4) (by omega)
    have h2 := isB64Char_encB64 (a % 4 * 16 + b / 16) (by omega)
    have h3 := isB64Char_encB64 (b % 16 * 4) (by omega)
    have d1 := decB64_encB64 (a / 4) (by omega)
    have d2 := decB64_encB64 (a % 4 * 16 + b / 16) (by omega)
    have d3 := decB64_encB64 (b % 16 * 4) (by omega)
    simp only [b64Decode, b64Encode, List.filter, h1, h2, h3, isB64Char_pad]
    simp only [b64DecodeCore, d1, d2, d3, List.cons.injEq, and_true]
    constructor <;> omega
  | case4 a b c rest ih =>
    have ha : a < 256 := hb a (by simp)
    have hbb : b < 256 := hb b (by simp)
    have hc : c < 256 := hb c (by simp)
    have hrest : ∀ x ∈ rest, x < 256 := fun x hx => hb x (by simp [hx])
    have h1 := isB64Char_encB64 (a / 4) (by omega)
    have h2 := isB64Char_encB64 (a % 4 * 16 + b / 16) (by omega)
    have h3 := isB64Char_encB64 (b % 16 * 4 + c / 64) (by omega)
    have h4 := isB64Char_encB64 (c % 64) (by omega)
    have d1 := decB64_encB64 (a / 4) (by omega)
    have d2 := decB64_encB64 (a % 4 * 16 + b / 16) (by omega)
    have d3 := decB64_encB64 (b % 16 * 4 + c / 64) (by omega)
    have d4 := decB64_encB64 (c % 64) (by omega)
    have ihr := ih hrest
    simp only [b64Decode, b64Encode, List.filter, h1, h2, h3, h4] at ihr ⊢
    simp only [b64DecodeCore, d1, d2, d3, d4, List.cons.injEq]
    refine ⟨by omega, by omega, by omega, ihr⟩

/-! ## Lemmas: the XOR loop -/

theorem keyAt_lt (k : JSStr) (hk : ∀ c ∈ k, c < 256) (i : Nat) : keyAt k i < 256 := by
  unfold keyAt
  rcases k with _ | ⟨a, tl⟩
  · simp [List.getD]
  · have hlt : i % (a :: tl).length < (a :: tl).length := Nat.mod_lt _ (by simp)
    rw [List.getD_eq_getElem _ _ hlt]
    exact hk _ (List.getElem_mem hlt)

theorem xorCycAux_cancel (k1 k2 : JSStr) (hk1 : ∀ c ∈ k1, c < 256) :
    ∀ (bs : JSStr) (i : Nat), (∀ x ∈ bs, x < 256) →
      (∀ j, j < bs.length → keyAt k1 (i + j) = keyAt k2 (i + j)) →
      xorCycAux k2 i (xorCycAux k1 i bs) = bs := by
  intro bs
  induction bs with
  | nil => intro i _ _; rfl
  | cons d rest ih =>
    intro i hb hagree
    have hd : d < 256 := hb d (by simp)
    have hκ : keyAt k1 i < 256 := keyAt_lt k1 hk1 i
    have hx : d ^^^ keyAt k1 i < 256 := Nat.xor_lt_two_pow (n := 8) hd hκ
    have hkey : keyAt k2 i = keyAt k1 i := by
      have := hagree 0 (by simp)
      simpa using this.symm
    simp only [xorCycAux, Nat.mod_eq_of_lt hx, hkey, Nat.xor_cancel_right,
      Nat.mod_eq_of_lt hd, List.cons.injEq, true_and]
    apply ih (i + 1) (fun x hx => hb x (by simp [hx]))
    intro j hj
    have := hagree (j + 1) (by simp; omega)
    have harith : i + (j + 1) = i + 1 + j := by omega
    rwa [harith] at this


/-! ## Lemmas: utf8 encode/decode round-trip -/

theorem utf8EncodeAux_irrel : ∀ (f1 f2 : Nat) (l : JSStr), l.length ≤ f1 →
    l.length ≤ f2 → utf8EncodeAux f1 l = utf8EncodeAux f2 l := by
  intro f1
  induction f1 with
  | zero =>
    intro f2 l h1 _
    have hl : l = [] := List.eq_nil_of_length_eq_zero (by omega)
    subst hl
    cases f2 <;> simp [utf8EncodeAux]
  | succ f ih =>
    intro f2 l h1 h2
    cases l with
    | nil => cases f2 <;> simp [utf8EncodeAux]
    | cons c rest =>
      cases f2 with
      | zero => simp at h2
      | succ f2' =>
        simp only [List.length_cons] at h1 h2
        rw [utf8EncodeAux.eq_def, utf8EncodeAux.eq_def]
        dsimp only
        by_cases hc1 : c < 128
        · rw [if_pos hc1, if_pos hc1, ih f2' rest (by omega) (by omega)]
        · rw [if_neg hc1, if_neg hc1]
          by_cases hc2 : c < 2048
          · rw [if_pos hc2, if_pos hc2, ih f2' rest (by omega) (by omega)]
          · rw [if_neg hc2, if_neg hc2]
            by_cases hc3 : (c < 55296 || 57344 ≤ c) = true
            · rw [if_pos hc3, if_pos hc3, ih f2' rest (by omega) (by omega)]
            · rw [if_neg hc3, if_neg hc3]
              by_cases hc4 : c < 56320
              · rw [if_pos hc4, if_pos hc4]
                cases rest with
                | nil => rfl
                | cons c2 rest2 =>
                  simp only [List.length_cons] at h1 h2
                  dsimp only
                  by_cases hc5 : (56320 ≤ c2 && c2 < 57344) = true
                  · rw [if_pos hc5, if_pos hc5, ih f2' rest2 (by omega) (by omega)]
                  · rw [if_neg hc5, if_neg hc5,
                      ih f2' (c2 :: rest2) (by simp; omega) (by simp; omega)]
              · rw [if_neg hc4, if_neg hc4, ih f2' rest (by omega) (by omega)]

theorem utf8Encode_ascii (d : Nat) (rest : JSStr) (h : d < 128) :
    utf8Encode (d :: rest) = d :: utf8Encode rest := by
  show utf8EncodeAux (d :: rest).length (d :: rest) = _
  rw [List.length_cons, utf8EncodeAux.eq_def]
  dsimp only
  rw [if_pos h]
  rfl

theorem utf8Encode_two (d : Nat) (rest : JSStr) (h1 : ¬ d < 128) (h2 : d < 2048) :
    utf8Encode (d :: rest) = (192 + d / 64) :: (128 + d % 64) :: utf8Encode rest := by
  show utf8EncodeAux (d :: rest).length (d :: rest) = _
  rw [List.length_cons, utf8EncodeAux.eq_def]
  dsimp only
  rw [if_neg h1, if_pos h2]
  rfl

theorem utf8Encode_three (d : Nat) (rest : JSStr) (h1 : ¬ d < 128) (h2 : ¬ d < 2048)
    (h3 : d < 55296 ∨ 57344 ≤ d) :
    utf8Encode (d :: rest) =
      (224 + d / 4096) :: (128 + d / 64 % 64) :: (128 + d % 64) :: utf8Encode rest := by
  have hC : (d < 55296 || 57344 ≤ d) = true := by simp; omega
  show utf8EncodeAux (d :: rest).length (d :: rest) = _
  rw [List.length_cons, utf8EncodeAux.eq_def]
  dsimp only
  rw [if_neg h1, if_neg h2, if_pos hC]
  rfl

theorem utf8Encode_pair (d c2 : Nat) (rest2 : JSStr) (h1 : 55296 ≤ d) (h2 : d < 56320)
    (h3 : 56320 ≤ c2) (h4 : c2 < 57344) :
    utf8Encode (d :: c2 :: rest2) =
      (240 + (65536 + (d - 55296) * 1024 + (c2 - 56320)) / 262144) ::
      (128 + (65536 + (d - 55296) * 1024 + (c2 - 56320)) / 4096 % 64) ::
      (128 + (65536 + (d - 55296) * 1024 + (c2 - 56320)) / 64 % 64) ::
      (128 + (65536 + (d - 55296) * 1024 + (c2 - 56320)) % 64) :: utf8Encode rest2 := by
  have hA : ¬ d < 128 := by omega
  have hB : ¬ d < 2048 := by omega
  have hC : ¬ (d < 55296 || 57344 ≤ d) = true := by simp; omega
  have hD : (56320 ≤ c2 && c2 < 57344) = true := by simp; omega
  show utf8EncodeAux (d :: c2 :: rest2).length (d :: c2 :: rest2) = _
  rw [List.length_cons, List.length_cons, utf8EncodeAux.eq_def]
  dsimp only
  rw [if_neg hA, if_neg hB, if_neg hC, if_pos h2]
  simp only [hD, if_true]
  rw [utf8EncodeAux_irrel (rest2.length + 1) rest2.length rest2 (by omega) (by omega)]
  rfl

theorem validUtf16_cons (c : Nat) (rest : JSStr) (h : validUtf16 (c :: rest) = true) :
    ((c < 55296 ∨ (57344 ≤ c ∧ c < 65536)) ∧ validUtf16 rest = true) ∨
    (∃ c2 rest2, rest = c2 :: rest2 ∧ 55296 ≤ c ∧ c < 56320 ∧
      56320 ≤ c2 ∧ c2 < 57344 ∧ validUtf16 rest2 = true) := by
  rw [validUtf16.eq_def] at h
  by_cases h1 : (c < 55296 || (57344 ≤ c && c < 65536)) = true
  · left
    constructor
    · simp only [Bool.or_eq_true, Bool.and_eq_true, decide_eq_true_eq] at h1
      omega
    · simpa [h1] using h
  · have hb1 : ¬ (c < 55296 ∨ (57344 ≤ c ∧ c < 65536)) := by
      simpa [Bool.or_eq_true, Bool.and_eq_true, decide_eq_true_eq] using h1
    right
    rw [Bool.not_eq_true] at h1
    simp only [h1, Bool.false_eq_true, if_false] at h
    by_cases h2 : c < 56320
    · simp only [h2, if_true] at h
      match rest, h with
      | c2 :: rest2, h =>
        simp only [Bool.and_eq_true, decide_eq_true_eq] at h
        exact ⟨c2, rest2, rfl, by omega, h2, by omega, by omega, h.2⟩
    · simp [h2] at h

theorem utf8Encode_mem_lt (p : JSStr) : validUtf16 p = true →
    ∀ x ∈ utf8Encode p, x < 256 := by
  suffices h : ∀ (n : Nat) (q : JSStr), q.length ≤ n → validUtf16 q = true →
      ∀ x ∈ utf8Encode q, x < 256 from h p.length p (le_refl _)
  intro n
  induction n with
  | zero =>
    intro q hq _ x hx
    have hnil : q = [] := List.eq_nil_of_length_eq_zero (by omega)
    subst hnil
    simp [utf8Encode, utf8EncodeAux] at hx
  | succ m ih =>
    intro q hq hv x hx
    cases q with
    | nil => simp [utf8Encode, utf8EncodeAux] at hx
    | cons c rest =>
      simp only [List.length_cons] at hq
      rcases validUtf16_cons c rest hv with ⟨hbound, hrest⟩ |
        ⟨c2, rest2, heq, hd1, hd2, hc1, hc2, hrest2⟩
      · by_cases hA : c < 128
        · rw [utf8Encode_ascii c rest hA] at hx
          rcases List.mem_cons.mp hx with h | h
          · omega
          · exact ih rest (by omega) hrest x h
        · by_cases hB : c < 2048
          · rw [utf8Encode_two c rest hA hB] at hx
            rcases List.mem_cons.mp hx with h | h
            · omega
            · rcases List.mem_cons.mp h with h | h
              · omega
              · exact ih rest (by omega) hrest x h
          · have h3 : c < 55296 ∨ 57344 ≤ c := by omega
            have hc16 : c < 65536 := by omega
            rw [utf8Encode_three c rest hA hB h3] at hx
            rcases List.mem_cons.mp hx with h | h
            · omega
            · rcases List.mem_cons.mp h with h | h
              · omega
              · rcases List.mem_cons.mp h with h | h
                · omega
                · exact ih rest (by omega) hrest x h
      · subst heq
        simp only [List.length_cons] at hq
        rw [utf8Encode_pair c c2 rest2 hd1 hd2 hc1 hc2] at hx
        have hcp : 65536 + (c - 55296) * 1024 + (c2 - 56320) ≤ 1114111 := by omega
        rcases List.mem_cons.mp hx with h | h
        · omega
        · rcases List.mem_cons.mp h with h | h
          · omega
          · rcases List.mem_cons.mp h with h | h
            · omega
            · rcases List.mem_cons.mp h with h | h
              · omega
              · exact ih rest2 (by omega) hrest2 x h

theorem utf8DecStep_ascii (b : Nat) (rest : List Nat) (h : b < 128) :
    utf8DecStep b rest = ([b], 0) := by
  simp [utf8DecStep, h]

theorem utf8DecStep_two (b b2 : Nat) (rest : List Nat)
    (h1 : 194 ≤ b) (h2 : b ≤ 223) (h3 : 128 ≤ b2) (h4 : b2 < 192) :
    utf8DecStep b (b2 :: rest) = ([(b - 192) * 64 + (b2 - 128)], 1) := by
  simp only [utf8DecStep]
  split_ifs <;> simp_all <;> omega

theorem utf8DecStep_three (b b2 b3 : Nat) (rest : List Nat)
    (h1 : 224 ≤ b) (h2 : b ≤ 239) (h3 : 128 ≤ b2) (h4 : b2 < 192)
    (h5 : 128 ≤ b3) (h6 : b3 < 192) :
    utf8DecStep b (b2 :: b3 :: rest) =
      ([(b - 224) * 4096 + (b2 - 128) * 64 + (b3 - 128)], 2) := by
  simp only [utf8DecStep]
  split_ifs <;> simp_all <;> omega

theorem utf8DecStep_four_hi (b b2 b3 b4 : Nat) (rest : List Nat)
    (h1 : 240 ≤ b) (h2 : b ≤ 244) (h3 : 128 ≤ b2) (h4 : b2 < 192)
    (h5 : 128 ≤ b3) (h6 : b3 < 192) (h7 : 128 ≤ b4) (h8 : b4 < 192)
    (hcp : 65536 ≤ (b - 240) * 262144 + (b2 - 128) * 4096 + (b3 - 128) * 64 + (b4 - 128)) :
    utf8DecStep b (b2 :: b3 :: b4 :: rest) =
      ([55296 + ((b - 240) * 262144 + (b2 - 128) * 4096 + (b3 - 128) * 64 + (b4 - 128)
          - 65536) / 1024,
        56320 + ((b - 240) * 262144 + (b2 - 128) * 4096 + (b3 - 128) * 64 + (b4 - 128)
          - 65536) % 1024], 3) := by
  simp only [utf8DecStep]
  split_ifs <;> simp_all <;> omega

theorem utf8DecodeAux_irrel : ∀ (f1 f2 : Nat) (l : List Nat), l.length ≤ f1 →
    l.length ≤ f2 → utf8DecodeAux f1 l = utf8DecodeAux f2 l := by
  intro f1
  induction f1 with
  | zero =>
    intro f2 l h1 _
    have hl : l = [] := List.eq_nil_of_length_eq_zero (by omega)
    subst hl
    cases f2 <;> simp [utf8DecodeAux]
  | succ f ih =>
    intro f2 l h1 h2
    cases l with
    | nil => cases f2 <;> simp [utf8DecodeAux]
    | cons b rest =>
      cases f2 with
      | zero => simp at h2
      | succ f2' =>
        simp only [List.length_cons] at h1 h2
        rw [utf8DecodeAux.eq_def, utf8DecodeAux.eq_def]
        dsimp only
        have hd := List.length_drop ((utf8DecStep b rest).2) rest
        rw [ih f2' (rest.drop ((utf8DecStep b rest).2)) (by omega) (by omega)]

theorem utf8Decode_cons (b : Nat) (rest : List Nat) :
    utf8Decode (b :: rest) =
      (utf8DecStep b rest).1 ++ utf8Decode (rest.drop (utf8DecStep b rest).2) := by
  show utf8DecodeAux (b :: rest).length (b :: rest) = _
  rw [List.length_cons, utf8DecodeAux.eq_def]
  dsimp only
  have hd := List.length_drop ((utf8DecStep b rest).2) rest
  rw [utf8DecodeAux_irrel rest.length (rest.drop ((utf8DecStep b rest).2)).length
    (rest.drop ((utf8DecStep b rest).2)) (by omega) (by omega)]
  rfl

theorem utf8_roundtrip (p : JSStr) : validUtf16 p = true →
    utf8Decode (utf8Encode p) = p := by
  suffices h : ∀ (n : Nat) (q : JSStr), q.length ≤ n → validUtf16 q = true →
      utf8Decode (utf8Encode q) = q from h p.length p (le_refl _)
  intro n
  induction n with
  | zero =>
    intro q hq _
    have hnil : q = [] := List.eq_nil_of_length_eq_zero (by omega)
    subst hnil
    rfl
  | succ m ih =>
    intro q hq hv
    cases q with
    | nil => rfl
    | cons c rest =>
      simp only [List.length_cons] at hq
      rcases validUtf16_cons c rest hv with ⟨hbound, hrest⟩ |
        ⟨c2, rest2, heq, hd1, hd2, hc1, hc2, hrest2⟩
      · by_cases hA : c < 128
        · rw [utf8Encode_ascii c rest hA, utf8Decode_cons,
            utf8DecStep_ascii c _ hA]
          simp only [List.drop_zero, List.singleton_append]
          rw [ih rest (by omega) hrest]
        · by_cases hB : c < 2048
          · rw [utf8Encode_two c rest hA hB, utf8Decode_cons,
              utf8DecStep_two _ _ _ (by omega) (by omega) (by omega) (by omega)]
            simp only [List.drop_succ_cons, List.drop_zero, List.singleton_append]
            rw [ih rest (by omega) hrest]
            have hval : (192 + c / 64 - 192) * 64 + (128 + c % 64 - 128) = c := by omega
            rw [hval]
          · have h3 : c < 55296 ∨ 57344 ≤ c := by omega
            have hc16 : c < 65536 := by omega
            rw [utf8Encode_three c rest hA hB h3, utf8Decode_cons,
              utf8DecStep_three _ _ _ _ (by omega) (by omega) (by omega) (by omega)
                (by omega) (by omega)]
            simp only [List.drop_succ_cons, List.drop_zero, List.singleton_append]
            rw [ih rest (by omega) hrest]
            have hval : (224 + c / 4096 - 224) * 4096 + (128 + c / 64 % 64 - 128) * 64 +
                (128 + c % 64 - 128) = c := by omega
            rw [hval]
      · subst heq
        simp only [List.length_cons] at hq
        have hcp : 65536 ≤ 65536 + (c - 55296) * 1024 + (c2 - 56320) ∧
            65536 + (c - 55296) * 1024 + (c2 - 56320) ≤ 1114111 := by omega
        rw [utf8Encode_pair c c2 rest2 hd1 hd2 hc1 hc2, utf8Decode_cons,
          utf8DecStep_four_hi _ _ _ _ _ (by omega) (by omega) (by omega) (by omega)
            (by omega) (by omega) (by omega) (by omega) (by omega)]
        simp only [List.drop_succ_cons, List.drop_zero]
        rw [ih rest2 (by omega) hrest2]
        have hu1 : 55296 + ((240 + (65536 + (c - 55296) * 1024 + (c2 - 56320)) / 262144
            - 240) * 262144 +
            (128 + (65536 + (c - 55296) * 1024 + (c2 - 56320)) / 4096 % 64 - 128) * 4096 +
            (128 + (65536 + (c - 55296) * 1024 + (c2 - 56320)) / 64 % 64 - 128) * 64 +
            (128 + (65536 + (c - 55296) * 1024 + (c2 - 56320)) % 64 - 128) - 65536) / 1024
            = c := by omega
        have hu2 : 56320 + ((240 + (65536 + (c - 55296) * 1024 + (c2 - 56320)) / 262144
            - 240) * 262144 +
            (128 + (65536 + (c - 55296) * 1024 + (c2 - 56320)) / 4096 % 64 - 128) * 4096 +
            (128 + (65536 + (c - 55296) * 1024 + (c2 - 56320)) / 64 % 64 - 128) * 64 +
            (128 + (65536 + (c - 55296) * 1024 + (c2 - 56320)) % 64 - 128) - 65536) % 1024
            = c2 := by omega
        rw [hu1, hu2]
        rfl

/-! ## Lemmas: the cipher round-trip -/

theorem xorCycAux_mem_lt (k : JSStr) (i : Nat) (bs : JSStr) :
    ∀ x ∈ xorCycAux k i bs, x < 256 := by
  induction bs generalizing i with
  | nil => simp [xorCycAux]
  | cons d rest ih =>
    intro x hx
    simp only [xorCycAux, List.mem_cons] at hx
    rcases hx with h | h
    · subst h
      exact Nat.mod_lt _ (by omega)
    · exact ih (i + 1) x h

/-- Decrypting `simpleEncrypt p k1` with a key `k2` that agrees with `k1` on
every ciphertext position recovers `p` exactly. -/
theorem simpleDecrypt_simpleEncrypt (p k1 k2 : JSStr)
    (hp : validUtf16 p = true)
    (hk1 : ∀ c ∈ k1, c < 256)
    (hagree : ∀ j, j < (b64Encode (utf8Encode p)).length → keyAt k1 j = keyAt k2 j) :
    simpleDecrypt (simpleEncrypt p k1) k2 = p := by
  unfold simpleEncrypt simpleDecrypt xorCyc
  rw [b64_roundtrip _ (xorCycAux_mem_lt k1 0 _)]
  rw [xorCycAux_cancel k1 k2 hk1 _ 0
    (fun x hx => by have := b64Encode_mem_lt _ x hx; omega)
    (fun j hj => by simpa using hagree j hj)]
  rw [b64_roundtrip _ (fun x hx => utf8Encode_mem_lt p hp x hx)]
  exact utf8_roundtrip p hp

/-- Same-key decryption round-trip. -/
theorem simpleDecrypt_roundtrip (p k : JSStr)
    (hp : validUtf16 p = true) (hk : ∀ c ∈ k, c < 256) :
    simpleDecrypt (simpleEncrypt p k) k = p :=
  simpleDecrypt_simpleEncrypt p k k hp hk (fun _ _ => rfl)

/-! ## Lemmas: key generation and storage -/

theorem deriveKey_length (u : JSStr) (t : Nat) (r : JSStr) :
    (deriveKey u t r).length = 32 := by
  simp [deriveKey, List.length_take, generateHash_length]

theorem deriveKey_mem_lt (u : JSStr) (t : Nat) (r : JSStr) :
    ∀ c ∈ deriveKey u t r, c < 256 := by
  intro c hc
  exact generateHash_mem_lt _ c (List.mem_of_mem_take hc)

/-- Stored key (if any) for `u` consists of byte-sized char codes.  This holds
for every key ever written by `generateUserKey` itself. -/
def storedKeyValidB (st : Store) (u : JSStr) : Bool :=
  match st.items.lookup (storageKey u) with
  | some k => k.all (fun c => decide (c < 256))
  | none => true

/-- Stored key (if any) for `u` has exactly 32 characters.  This holds for
every key ever written by `generateUserKey` itself. -/
def storedKeyLen32B (st : Store) (u : JSStr) : Bool :=
  match st.items.lookup (storageKey u) with
  | some k => k.length == 32
  | none => true

theorem generateUserKey_fail (u : JSStr) (t : Nat) (r : JSStr) (st : Store)
    (hfail : storageKey u ∈ st.failing) :
    generateUserKey u t r st = .error () := by
  simp [generateUserKey, getItem, hfail]

theorem generateUserKey_stored (u : JSStr) (t : Nat) (r : JSStr) (st : Store) (k : JSStr)
    (hfail : storageKey u ∉ st.failing)
    (hlk : st.items.lookup (storageKey u) = some k) :
    generateUserKey u t r st = .ok (k, st) := by
  simp [generateUserKey, getItem, hfail, hlk]

theorem generateUserKey_fresh (u : JSStr) (t : Nat) (r : JSStr) (st : Store)
    (hfail : storageKey u ∉ st.failing)
    (hlk : st.items.lookup (storageKey u) = none) :
    generateUserKey u t r st =
      .ok (deriveKey u t r,
        ⟨(storageKey u, deriveKey u t r) :: st.items, st.failing⟩) := by
  simp [generateUserKey, getItem, setItem, hfail, hlk]

theorem generateUserKey_ok (u : JSStr) (t : Nat) (r : JSStr) (st : Store)
    (hfail : storageKey u ∉ st.failing) :
    ∃ k st', generateUserKey u t r st = .ok (k, st') ∧
      st'.items.lookup (storageKey u) = some k ∧
      st'.failing = st.failing ∧
      (storedKeyValidB st u = true → ∀ c ∈ k, c < 256) ∧
      (storedKeyLen32B st u = true → k.length = 32) := by
  cases hlk : st.items.lookup (storageKey u) with
  | some k =>
    refine ⟨k, st, generateUserKey_stored u t r st k hfail hlk, hlk, rfl, ?_, ?_⟩
    · intro hv
      unfold storedKeyValidB at hv
      rw [hlk] at hv
      simpa [List.all_eq_true] using hv
    · intro hv
      unfold storedKeyLen32B at hv
      rw [hlk] at hv
      simpa using hv
  | none =>
    refine ⟨deriveKey u t r, _, generateUserKey_fresh u t r st hfail hlk, ?_, rfl,
      fun _ => deriveKey_mem_lt u t r, fun _ => deriveKey_length u t r⟩
    simp [List.lookup_cons_self]

/-! ## Claim theorems -/

/-- C8: `verifyMessageIntegrity` returns `false` exactly when the current time
minus the envelope timestamp exceeds 24 hours (24*60*60*1000 ms) and `true`
otherwise, including for future timestamps; it reads only the timestamp, so
changing `content`, `iv` or `type` never changes the verdict. -/
theorem c8_verifyMessageIntegrity_age_only (now : Nat) (e : EncryptedMessage)
    (c i : JSStr) (ty : MType) :
    (verifyMessageIntegrity now e = false ↔
      (now : Int) - (e.timestamp : Int) > 24 * 60 * 60 * 1000) ∧
    verifyMessageIntegrity now ⟨c, i, e.timestamp, ty⟩ = verifyMessageIntegrity now e := by
  constructor
  · unfold verifyMessageIntegrity
    by_cases h : (now : Int) - (e.timestamp : Int) > 24 * 60 * 60 * 1000 <;> simp [h]
  · rfl

/-- C9: `compressBase64` and `decompressBase64` reference the unbound
`CryptoJS` global, so both behave as the identity, and the media entry points
pass the payload through to `encryptMessage`/`decryptMessage` unchanged. -/
theorem c9_compress_decompress_identity (s b : JSStr) (u : JSStr) (mt : MType)
    (tKey : Nat) (rKey : JSStr) (tIv tTs : Nat) (e : EncryptedMessage) (st : Store) :
    compressBase64 s = s ∧ decompressBase64 s = s ∧
    encryptMedia b u mt tKey rKey tIv tTs st = encryptMessage b u mt tKey rKey tIv tTs st ∧
    decryptMedia e u tKey rKey st = decryptMessage e u tKey rKey st := by
  refine ⟨rfl, rfl, rfl, ?_⟩
  unfold decryptMedia decompressBase64 cryptoJSDecompress
  rfl

/-- C10: decryption reads only the `content` field of the envelope (and the
stored key): envelopes with equal `content` decrypt identically whatever their
`iv`, `timestamp` and `type`. -/
theorem c10_decrypt_depends_only_on_content (e1 e2 : EncryptedMessage)
    (u : JSStr) (tKey : Nat) (rKey : JSStr) (st : Store)
    (h : e1.content = e2.content) :
    decryptMessage e1 u tKey rKey st = decryptMessage e2 u tKey rKey st := by
  unfold decryptMessage
  rw [h]

/-- C10 witness: two envelopes sharing `content` but differing in `iv`,
`timestamp` and `type` decrypt to the same result. -/
theorem c10_witness :
    decryptMessage ⟨jstr "abc", decDigits 1, 1, .text⟩ (jstr "u") 0 (jstr "0.1")
        ⟨[], []⟩ =
      decryptMessage ⟨jstr "abc", decDigits 2, 999999, .image⟩ (jstr "u") 0 (jstr "0.1")
        ⟨[], []⟩ :=
  c10_decrypt_depends_only_on_content _ _ _ _ _ _ rfl

/-- C1 counterexample: with a stored key present, encrypting the same
plaintext at two different times yields envelopes with *equal* `content`
(the XOR cipher uses no IV), so the claimed conjunction
`A.iv ≠ B.iv ∧ A.content ≠ B.content` fails. -/
theorem c1_counterexample :
    ¬ (((encEnvOf (jstr "hello") (jstr "u1") .text 0 (jstr "0.5") 5 5
          ⟨[(storageKey (jstr "u1"), List.replicate 32 48)], []⟩).iv ≠
        (encEnvOf (jstr "hello") (jstr "u1") .text 0 (jstr "0.5") 6 6
          ⟨[(storageKey (jstr "u1"), List.replicate 32 48)], []⟩).iv) ∧
       ((encEnvOf (jstr "hello") (jstr "u1") .text 0 (jstr "0.5") 5 5
          ⟨[(storageKey (jstr "u1"), List.replicate 32 48)], []⟩).content ≠
        (encEnvOf (jstr "hello") (jstr "u1") .text 0 (jstr "0.5") 6 6
          ⟨[(storageKey (jstr "u1"), List.replicate 32 48)], []⟩).content)) := by
  decide

/-- C1 (amended): two `encryptMessage` calls with the same stored key always
produce the *same* `content` (the cipher is deterministic and ignores the
`iv`), and their `iv` fields — `Date.now().toString()` — differ exactly when
the two calls observe different `Date.now()` values. -/
theorem c1_amended_deterministic_content_iv_is_time
    (p u : JSStr) (mt : MType) (tKey1 : Nat) (rKey1 : JSStr) (tIv1 tTs1 : Nat)
    (tKey2 : Nat) (rKey2 : JSStr) (tIv2 tTs2 : Nat) (st : Store) (k : JSStr)
    (hfail : storageKey u ∉ st.failing)
    (hlk : st.items.lookup (storageKey u) = some k) :
    (encryptMessage p u mt tKey1 rKey1 tIv1 tTs1 st).isOk = true ∧
    (encEnvOf p u mt tKey1 rKey1 tIv1 tTs1 st).content =
      (encEnvOf p u mt tKey2 rKey2 tIv2 tTs2 st).content ∧
    ((encEnvOf p u mt tKey1 rKey1 tIv1 tTs1 st).iv =
      (encEnvOf p u mt tKey2 rKey2 tIv2 tTs2 st).iv ↔ tIv1 = tIv2) := by
  have h1 := generateUserKey_stored u tKey1 rKey1 st k hfail hlk
  have h2 := generateUserKey_stored u tKey2 rKey2 st k hfail hlk
  unfold encEnvOf encryptMessage
  rw [h1, h2]
  refine ⟨rfl, rfl, ?_, ?_⟩
  · exact fun h => decDigits_injective h
  · intro h
    rw [h]

/-- C1 witness: the amended statement at a concrete stored key and two
distinct times. -/
theorem c1_witness :
    (encryptMessage (jstr "hello") (jstr "u1") .text 0 (jstr "0.5") 5 5
        ⟨[(storageKey (jstr "u1"), List.replicate 32 48)], []⟩).isOk = true ∧
    (encEnvOf (jstr "hello") (jstr "u1") .text 0 (jstr "0.5") 5 5
        ⟨[(storageKey (jstr "u1"), List.replicate 32 48)], []⟩).content =
      (encEnvOf (jstr "hello") (jstr "u1") .text 0 (jstr "0.5") 6 6
        ⟨[(storageKey (jstr "u1"), List.replicate 32 48)], []⟩).content ∧
    ((encEnvOf (jstr "hello") (jstr "u1") .text 0 (jstr "0.5") 5 5
        ⟨[(storageKey (jstr "u1"), List.replicate 32 48)], []⟩).iv =
      (encEnvOf (jstr "hello") (jstr "u1") .text 0 (jstr "0.5") 6 6
        ⟨[(storageKey (jstr "u1"), List.replicate 32 48)], []⟩).iv ↔ (5 : Nat) = 6) :=
  c1_amended_deterministic_content_iv_is_time (jstr "hello") (jstr "u1") .text
    0 (jstr "0.5") 5 5 0 (jstr "0.5") 6 6
    ⟨[(storageKey (jstr "u1"), List.replicate 32 48)], []⟩
    (List.replicate 32 48) (by decide) (by decide)

/-- C3 counterexample: decrypting an envelope produced under one key while
the store holds a *different* key for the user (the wrong-key failure mode
named by the claim) returns XOR garbage — here the string `"QO}"` — and not
the sentinel placeholder (neither of the two sentinel strings in the source),
nor the original plaintext. -/
theorem c3_counterexample :
    ((decryptMessage ⟨simpleEncrypt (jstr "A") (List.replicate 32 48), decDigits 5, 5, .text⟩
        (jstr "u") 0 (jstr "0.1")
        ⟨[(storageKey (jstr "u"), List.replicate 32 52)], []⟩).1 ≠
      jstr "[Mensagem criptografada - erro na descriptografia]") ∧
    ((decryptMessage ⟨simpleEncrypt (jstr "A") (List.replicate 32 48), decDigits 5, 5, .text⟩
        (jstr "u") 0 (jstr "0.1")
        ⟨[(storageKey (jstr "u"), List.replicate 32 52)], []⟩).1 ≠
      jstr "[Erro na descriptografia]") ∧
    ((decryptMessage ⟨simpleEncrypt (jstr "A") (List.replicate 32 48), decDigits 5, 5, .text⟩
        (jstr "u") 0 (jstr "0.1")
        ⟨[(storageKey (jstr "u"), List.replicate 32 52)], []⟩).1 ≠ jstr "A") := by
  decide

/-- C3 (amended): `decryptMessage` never throws (it is a total function); it
returns the sentinel `'[Mensagem criptografada - erro na descriptografia]'`
exactly when storage fails while fetching/creating the key, and otherwise
returns whatever `simpleDecrypt` makes of the `content` field under the
user's key — on wrong key or corrupted ciphertext that is garbage, not a
sentinel (`simpleDecrypt`'s own catch being unreachable). -/
theorem c3_amended_sentinel_only_on_storage_failure (e : EncryptedMessage)
    (u : JSStr) (tKey : Nat) (rKey : JSStr) (st : Store) :
    decryptMessage e u tKey rKey st =
      if storageKey u ∈ st.failing
      then (jstr "[Mensagem criptografada - erro na descriptografia]", st)
      else (simpleDecrypt e.content (genKeyOf u tKey rKey st),
        genStoreOf u tKey rKey st) := by
  by_cases hfail : storageKey u ∈ st.failing
  · simp only [hfail, if_true]
    unfold decryptMessage
    rw [generateUserKey_fail u tKey rKey st hfail]
  · simp only [hfail, if_false]
    obtain ⟨k, st', hgen, -, -, -, -⟩ := generateUserKey_ok u tKey rKey st hfail
    unfold decryptMessage genKeyOf genStoreOf
    rw [hgen]

/-- C2: the message round-trip.  With storage behaving as a map (no failures
on the user's storage key, and any already-stored key being well-formed byte
material, as every key written by `generateUserKey` is), decrypting with the
same user the envelope just produced by `encryptMessage` returns the original
plaintext exactly. -/
theorem c2_encrypt_decrypt_roundtrip (p u : JSStr) (mt : MType)
    (tKey : Nat) (rKey : JSStr) (tIv tTs tKey2 : Nat) (rKey2 : JSStr) (st : Store)
    (hp : validUtf16 p = true)
    (hfail : storageKey u ∉ st.failing)
    (hvalid : storedKeyValidB st u = true) :
    encryptThenDecrypt p u u mt tKey rKey tIv tTs tKey2 rKey2 st = some p := by
  obtain ⟨k, st', hgen, hlk', hfl', hv, -⟩ := generateUserKey_ok u tKey rKey st hfail
  have hk : ∀ c ∈ k, c < 256 := hv hvalid
  unfold encryptThenDecrypt encryptMessage decryptMessage
  rw [hgen]
  dsimp only
  rw [generateUserKey_stored u tKey2 rKey2 st' k (by rw [hfl']; exact hfail) hlk']
  dsimp only
  rw [simpleDecrypt_roundtrip p k hp hk]

/-- C2 witness: a fresh user in an empty store round-trips `"hi"`. -/
theorem c2_witness :
    encryptThenDecrypt (jstr "hi") (jstr "u1") (jstr "u1") .text 0 (jstr "0.5") 1 1 2
      (jstr "0.7") ⟨[], []⟩ = some (jstr "hi") :=
  c2_encrypt_decrypt_roundtrip (jstr "hi") (jstr "u1") .text 0 (jstr "0.5") 1 1 2
    (jstr "0.7") ⟨[], []⟩ (by decide) (by decide) (by decide)

/-- C4 counterexample: for the distinct users `"a"` and `"b"` holding distinct
stored keys, decrypting under `"b"`'s key the envelope that `"a"` produced for
the empty plaintext returns that plaintext exactly, contradicting "never
returns p". -/
theorem c4_counterexample :
    jstr "a" ≠ jstr "b" ∧
    (List.replicate 32 48 : JSStr) ≠ List.replicate 32 52 ∧
    encryptThenDecrypt [] (jstr "a") (jstr "b") .text 0 (jstr "0.1") 1 1 2 (jstr "0.2")
      ⟨[(storageKey (jstr "a"), List.replicate 32 48),
        (storageKey (jstr "b"), List.replicate 32 52)], []⟩ = some [] := by
  decide

/-- C4 (amended): cross-user isolation fails.  Whenever the two users' stored
keys agree on every position the ciphertext uses — vacuously for the empty
plaintext, and in particular whenever the derived keys coincide, which the
32-bit hash allows for distinct users — decrypting `u1`'s envelope with
`u2`'s key returns the plaintext exactly. -/
theorem c4_amended_cross_user_decrypt_returns_p
    (p u1 u2 : JSStr) (mt : MType) (tKey : Nat) (rKey : JSStr) (tIv tTs tKey2 : Nat)
    (rKey2 : JSStr) (st : Store) (k1 k2 : JSStr)
    (hp : validUtf16 p = true)
    (hf1 : storageKey u1 ∉ st.failing)
    (hf2 : storageKey u2 ∉ st.failing)
    (hl1 : st.items.lookup (storageKey u1) = some k1)
    (hl2 : st.items.lookup (storageKey u2) = some k2)
    (hk1 : ∀ c ∈ k1, c < 256)
    (hagree : ∀ j, j < (b64Encode (utf8Encode p)).length → keyAt k1 j = keyAt k2 j) :
    encryptThenDecrypt p u1 u2 mt tKey rKey tIv tTs tKey2 rKey2 st = some p := by
  unfold encryptThenDecrypt encryptMessage decryptMessage
  rw [generateUserKey_stored u1 tKey rKey st k1 hf1 hl1]
  dsimp only
  rw [generateUserKey_stored u2 tKey2 rKey2 st k2 hf2 hl2]
  dsimp only
  rw [simpleDecrypt_simpleEncrypt p k1 k2 hp hk1 hagree]

/-- C4 witness: two distinct users who happen to hold identical stored keys;
`u2` decrypts `u1`'s envelope back to the plaintext. -/
theorem c4_witness :
    encryptThenDecrypt (jstr "hi") (jstr "a") (jstr "b") .text 0 (jstr "0.1") 1 1 2
      (jstr "0.2")
      ⟨[(storageKey (jstr "a"), List.replicate 32 48),
        (storageKey (jstr "b"), List.replicate 32 48)], []⟩ = some (jstr "hi") :=
  c4_amended_cross_user_decrypt_returns_p (jstr "hi") (jstr "a") (jstr "b") .text
    0 (jstr "0.1") 1 1 2 (jstr "0.2")
    ⟨[(storageKey (jstr "a"), List.replicate 32 48),
      (storageKey (jstr "b"), List.replicate 32 48)], []⟩
    (List.replicate 32 48) (List.replicate 32 48)
    (by decide) (by decide) (by decide) (by decide) (by decide) (by decide) (by decide)

theorem lookup_filter_self (l : List (JSStr × JSStr)) (k : JSStr) :
    (l.filter (fun q => !(q.1 == k))).lookup k = none := by
  induction l with
  | nil => rfl
  | cons a tl ih =>
    by_cases h : a.1 = k
    · have h1 : (a.1 == k) = true := beq_iff_eq.mpr h
      simp [List.filter, h1, ih]
    · have h1 : (a.1 == k) = false := beq_eq_false_iff_ne.mpr h
      have h2 : (k == a.1) = false := beq_eq_false_iff_ne.mpr (fun he => h he.symm)
      simp [List.filter, h1, List.lookup, h2, ih]

set_option maxRecDepth 8000 in
/-- C5 counterexample: a concrete run in which, after `clearUserKeys`, the
fresh `generateUserKey` does return a different key (so the claim's first
conjunct holds), yet an envelope encrypted under the old key decrypts to the
*original plaintext* (the empty message) — not to the sentinel placeholder —
refuting "every envelope encrypted under the old key fails to decrypt:
decryptMessage on it returns the sentinel placeholder string, not the
original plaintext". -/
theorem c5_counterexample :
    deriveKey (jstr "u") 1 (jstr "0.2") ≠ deriveKey (jstr "u") 0 (jstr "0.1") ∧
    (clearUserKeys (jstr "u")
        ⟨[(storageKey (jstr "u"), deriveKey (jstr "u") 0 (jstr "0.1"))], []⟩).toOption =
      some ⟨[], []⟩ ∧
    (decryptMessage
        ⟨simpleEncrypt [] (deriveKey (jstr "u") 0 (jstr "0.1")), decDigits 5, 5, .text⟩
        (jstr "u") 1 (jstr "0.2") ⟨[], []⟩).1 = [] ∧
    (decryptMessage
        ⟨simpleEncrypt [] (deriveKey (jstr "u") 0 (jstr "0.1")), decDigits 5, 5, .text⟩
        (jstr "u") 1 (jstr "0.2") ⟨[], []⟩).1 ≠
      jstr "[Mensagem criptografada - erro na descriptografia]" ∧
    (decryptMessage
        ⟨simpleEncrypt [] (deriveKey (jstr "u") 0 (jstr "0.1")), decDigits 5, 5, .text⟩
        (jstr "u") 1 (jstr "0.2") ⟨[], []⟩).1 ≠
      jstr "[Erro na descriptografia]" := by
  decide

/-- C5 (amended): `clearUserKeys` removes the stored key, so the next
`generateUserKey` call re-derives a key from the fresh time/random material
(which differs from the cleared key only when the new material hashes
differently, and *can* coincide with it); decrypting any old envelope
afterwards returns `simpleDecrypt` of its `content` under the freshly derived
key — XOR garbage in general, the original plaintext in degenerate cases, and
the sentinel only on storage failure. -/
theorem c5_amended_clear_forces_fresh_derivation
    (u : JSStr) (st : Store) (t2 : Nat) (r2 : JSStr) (e : EncryptedMessage)
    (tk3 : Nat) (rk3 : JSStr)
    (hfail : storageKey u ∉ st.failing) :
    ∃ st2 st3,
      clearUserKeys u st = .ok st2 ∧
      st2.items.lookup (storageKey u) = none ∧
      generateUserKey u t2 r2 st2 = .ok (deriveKey u t2 r2, st3) ∧
      decryptMessage e u tk3 rk3 st3 =
        (simpleDecrypt e.content (deriveKey u t2 r2), st3) := by
  refine ⟨⟨st.items.filter (fun q => !(q.1 == storageKey u)), st.failing⟩,
    ⟨(storageKey u, deriveKey u t2 r2) ::
      st.items.filter (fun q => !(q.1 == storageKey u)), st.failing⟩, ?_, ?_, ?_, ?_⟩
  · unfold clearUserKeys removeItem
    rw [if_neg hfail]
  · exact lookup_filter_self st.items (storageKey u)
  · exact generateUserKey_fresh u t2 r2 _ hfail (lookup_filter_self st.items (storageKey u))
  · unfold decryptMessage
    rw [generateUserKey_stored u tk3 rk3
      ⟨(storageKey u, deriveKey u t2 r2) ::
        st.items.filter (fun q => !(q.1 == storageKey u)), st.failing⟩
      (deriveKey u t2 r2) hfail (by simp [List.lookup_cons_self])]

/-- C5 witness: the amended statement at a concrete store holding a key for
the user. -/
theorem c5_witness :
    ∃ st2 st3,
      clearUserKeys (jstr "u")
          ⟨[(storageKey (jstr "u"), List.replicate 32 48)], []⟩ = .ok st2 ∧
      st2.items.lookup (storageKey (jstr "u")) = none ∧
      generateUserKey (jstr "u") 1 (jstr "0.2") st2 =
        .ok (deriveKey (jstr "u") 1 (jstr "0.2"), st3) ∧
      decryptMessage ⟨jstr "xyz", decDigits 5, 5, .text⟩ (jstr "u") 2 (jstr "0.3") st3 =
        (simpleDecrypt (jstr "xyz") (deriveKey (jstr "u") 1 (jstr "0.2")), st3) :=
  c5_amended_clear_forces_fresh_derivation (jstr "u")
    ⟨[(storageKey (jstr "u"), List.replicate 32 48)], []⟩ 1 (jstr "0.2")
    ⟨jstr "xyz", decDigits 5, 5, .text⟩ 2 (jstr "0.3") (by decide)

/-- C6: the media round-trip.  `encryptMedia` and `decryptMedia` wrap the
message path with the (identity) codec, so under the same storage hypotheses
as the message round-trip, media payloads come back unchanged. -/
theorem c6_media_roundtrip (b u : JSStr) (mt : MType)
    (tKey : Nat) (rKey : JSStr) (tIv tTs tKey2 : Nat) (rKey2 : JSStr) (st : Store)
    (hb : validUtf16 b = true)
    (hfail : storageKey u ∉ st.failing)
    (hvalid : storedKeyValidB st u = true) :
    encryptThenDecryptMedia b u u mt tKey rKey tIv tTs tKey2 rKey2 st = some b := by
  obtain ⟨k, st', hgen, hlk', hfl', hv, -⟩ := generateUserKey_ok u tKey rKey st hfail
  have hk : ∀ c ∈ k, c < 256 := hv hvalid
  unfold encryptThenDecryptMedia encryptMedia encryptMessage decryptMedia decryptMessage
    compressBase64 decompressBase64 cryptoJSCompress cryptoJSDecompress
  rw [hgen]
  dsimp only
  rw [generateUserKey_stored u tKey2 rKey2 st' k (by rw [hfl']; exact hfail) hlk']
  dsimp only
  rw [simpleDecrypt_roundtrip b k hb hk]

/-- C6 witness: a base64-looking payload round-trips through the media path
for a fresh user. -/
theorem c6_witness :
    encryptThenDecryptMedia (jstr "aGVsbG8=") (jstr "u1") (jstr "u1") .image 0
      (jstr "0.5") 1 1 2 (jstr "0.7") ⟨[], []⟩ = some (jstr "aGVsbG8=") :=
  c6_media_roundtrip (jstr "aGVsbG8=") (jstr "u1") .image 0 (jstr "0.5") 1 1 2
    (jstr "0.7") ⟨[], []⟩ (by decide) (by decide) (by decide)

/-- C7: `generateUserKey` returns a key of exactly 32 characters — both when
freshly derived (the hash digest has exactly 32 characters and `substring`
keeps them all) and when read back from storage under the precondition that
stored keys were written by a prior call (expressed as
`storedKeyLen32B`) — and a second call with storage unchanged returns the
identical key and store. -/
theorem c7_generateUserKey_length_idempotent (u : JSStr) (t : Nat) (r : JSStr)
    (t2 : Nat) (r2 : JSStr) (st : Store)
    (hfail : storageKey u ∉ st.failing)
    (hlen : storedKeyLen32B st u = true) :
    ∃ k st', generateUserKey u t r st = .ok (k, st') ∧ k.length = 32 ∧
      generateUserKey u t2 r2 st' = .ok (k, st') := by
  obtain ⟨k, st', hgen, hlk', hfl', -, hl⟩ := generateUserKey_ok u t r st hfail
  exact ⟨k, st', hgen, hl hlen,
    generateUserKey_stored u t2 r2 st' k (by rw [hfl']; exact hfail) hlk'⟩

/-- C7 witness: a fresh user in an empty store gets a 32-character key, and a
repeat call returns the same key. -/
theorem c7_witness :
    ∃ k st', generateUserKey (jstr "u1") 0 (jstr "0.5") ⟨[], []⟩ = .ok (k, st') ∧
      k.length = 32 ∧ generateUserKey (jstr "u1") 7 (jstr "0.9") st' = .ok (k, st') :=
  c7_generateUserKey_length_idempotent (jstr "u1") 0 (jstr "0.5") 7 (jstr "0.9")
    ⟨[], []⟩ (by decide) (by decide)
